import Mathlib

set_option maxRecDepth 10000

/-!
Shallow embedding of `libzipfile/centraldir.c` (ZIP central-directory parser).

Modelling conventions:
* The archive buffer (`file->buf` / `file->bufsize`) is a `Buffer`: a length
  and a byte function.  Pointers into the buffer are `Nat` offsets from
  `file->buf`; `bufLimit = file->buf + file->bufsize` corresponds to the
  offset `Buffer.size`.
* Every memory access of the C code goes through `byteAt`, which returns
  `none` when the accessed index is outside `[0, size)`.  A `none` propagates
  to the distinguished outcome `CResult.oob`, marking an access the C code
  would perform outside the buffer (undefined behaviour in C).
* C `unsigned` arithmetic is `Nat` arithmetic with explicit `% 2^32`
  (`dataOffset` is a 32-bit `unsigned int` in the C code, and the
  `(unsigned int)(bufLimit - entry->data)` cast also truncates to 32 bits).
  Signed quantities (`ssize_t len`, `int len`) are `Int`.
* Each `fprintf`+`return` failure site of the C code is mapped to the error
  kind the specification assigns to it (`Zerr`).
-/

/-- A byte buffer: the archive contents handed to the parser.  `byte i` is
only meaningful for `i < size`; reads reduce it `% 256` since C memory holds
`unsigned char` values. -/
structure Buffer where
  size : Nat
  byte : Nat → Nat

/-- Build a buffer from an explicit list of byte values. -/
def Buffer.ofList (l : List Nat) : Buffer :=
  { size := l.length, byte := fun i => l.getD i 0 }

/-- The same buffer with its final byte removed (same byte content, one byte
shorter). -/
def truncateLast (b : Buffer) : Buffer :=
  { size := b.size - 1, byte := b.byte }

/-- One byte of the buffer; `none` when the access would be out of bounds. -/
def byteAt (b : Buffer) (i : Nat) : Option Nat :=
  if i < b.size then some (b.byte i % 256) else none

/-- C `read_le_short`: `buf[0] | (buf[1] << 8)`. -/
def read_le_short (b : Buffer) (off : Nat) : Option Nat :=
  match byteAt b off with
  | none => none
  | some b0 =>
    match byteAt b (off + 1) with
    | none => none
    | some b1 => some (b0 ||| (b1 <<< 8))

/-- C `read_le_int`: `buf[0] | (buf[1] << 8) | (buf[2] << 16) | (buf[3] << 24)`. -/
def read_le_int (b : Buffer) (off : Nat) : Option Nat :=
  match byteAt b off with
  | none => none
  | some b0 =>
    match byteAt b (off + 1) with
    | none => none
    | some b1 =>
      match byteAt b (off + 2) with
      | none => none
      | some b2 =>
        match byteAt b (off + 3) with
        | none => none
        | some b3 => some (b0 ||| (b1 <<< 8) ||| (b2 <<< 16) ||| (b3 <<< 24))

/-- Error kinds, one per `fprintf`+bail site of the C code, named as in the
specification (section 7). -/
inductive Zerr where
  | NotAZip
  | Truncated
  | BadSignature
  | MissingFileName
  | InvalidLocalHeaderOffset
  | InvalidDataOffset
  | InvalidDeclaredSize
  | SpanningUnsupported
deriving DecidableEq

/-- Result of running a piece of C code: either it returns a value, or it
performs an out-of-bounds memory access (`oob`). -/
inductive CResult (α : Type) where
  | ret : α → CResult α
  | oob : CResult α
deriving DecidableEq

/-- The fields of `Zipentry` that `read_central_directory_entry` fills in.
`fileName` and `data` are offsets into the buffer (the C code stores the
pointers `file->buf + offset`). -/
structure Zipentry where
  compressionMethod : Nat := 0
  compressedSize : Nat := 0
  uncompressedSize : Nat := 0
  fileNameLength : Nat := 0
  fileName : Nat := 0
  data : Nat := 0
deriving DecidableEq

/-- The fields of `Zipfile` used by `centraldir.c`.  `comment` is the offset
of the archive comment when present.  `entries` is the linked list
`file->entries`, front of list = most recently prepended. -/
structure Zipfile where
  buf : Buffer
  disknum : Nat := 0
  diskWithCentralDir : Nat := 0
  entryCount : Nat := 0
  totalEntryCount : Nat := 0
  centralDirSize : Nat := 0
  centralDirOffest : Nat := 0
  commentLen : Nat := 0
  comment : Option Nat := none
  entries : List Zipentry := []

/-- A fresh `Zipfile` over a buffer: all metadata zero, no entries (the state
in which `read_central_dir` is invoked). -/
def mkZipfile (b : Buffer) : Zipfile := { buf := b }

/-- One probe of the backward EOCD scan at position `i`:
`*p == 0x50 && read_le_int(p) == CD_SIGNATURE`. -/
def matchAt (b : Buffer) (i : Nat) : Bool :=
  decide (byteAt b i = some 0x50) && decide (read_le_int b i = some 0x06054b50)

/-- The same probe without the cheap first-byte test (used to show the
first-byte test never changes the scan result). -/
def matchAtNoPrecheck (b : Buffer) (i : Nat) : Bool :=
  decide (read_le_int b i = some 0x06054b50)

/-- Backward scan from position `s + k` down to position `s`, returning the
first (hence highest) matching position together with the number of positions
probed.  This is the loop `while (p >= start) { ... p--; }` of
`read_central_dir`, with `start = buf + s` and initial `p = buf + s + k`. -/
def scanAuxC (b : Buffer) (s : Nat) : Nat → Option Nat × Nat
  | 0 => if matchAt b s then (some s, 1) else (none, 1)
  | k + 1 =>
    if matchAt b (s + (k + 1)) then (some (s + (k + 1)), 1)
    else ((scanAuxC b s k).1, (scanAuxC b s k).2 + 1)

/-- The scan result (dropping the probe count). -/
def scanAux (b : Buffer) (s k : Nat) : Option Nat :=
  (scanAuxC b s k).1

/-- Start of the EOCD search window:
`start = (bufsize > MAX_EOCD_SEARCH) ? buf + bufsize - MAX_EOCD_SEARCH : buf`
with `MAX_EOCD_SEARCH = 65535 + 22 = 65557`. -/
def eocdWindowStart (b : Buffer) : Nat :=
  if 65557 < b.size then b.size - 65557 else 0

/-- The EOCD locator: fails for buffers below `EOCD_LEN = 22` bytes, else
scans backward from `bufsize - 4` down to the window start. -/
def findEocd (b : Buffer) : Option Nat :=
  if b.size < 22 then none
  else scanAux b (eocdWindowStart b) (b.size - 4 - eocdWindowStart b)

/-- C `read_central_dir_values`: decode the fixed 22-byte EOCD record at
offset `eocd`, with `len` bytes remaining from there to the buffer end
(an `int` in C).  On the comment-length failure the fields have already been
assigned to the file, exactly as in the C code. -/
def read_central_dir_values (file : Zipfile) (eocd : Nat) (len : Int) :
    CResult (Option Zerr × Zipfile) :=
  if len < 22 then .ret (some .Truncated, file)
  else
    match read_le_short file.buf (eocd + 0x04) with
    | none => .oob
    | some dn =>
      match read_le_short file.buf (eocd + 0x06) with
      | none => .oob
      | some dwcd =>
        match read_le_short file.buf (eocd + 0x08) with
        | none => .oob
        | some ec =>
          match read_le_short file.buf (eocd + 0x0a) with
          | none => .oob
          | some tec =>
            match read_le_int file.buf (eocd + 0x0c) with
            | none => .oob
            | some cds =>
              match read_le_int file.buf (eocd + 0x10) with
              | none => .oob
              | some cdo =>
                match read_le_short file.buf (eocd + 0x14) with
                | none => .oob
                | some cl =>
                  if 0 < cl then
                    if len < 22 + (cl : Int) then
                      .ret (some .Truncated,
                        { file with
                          disknum := dn
                          diskWithCentralDir := dwcd
                          entryCount := ec
                          totalEntryCount := tec
                          centralDirSize := cds
                          centralDirOffest := cdo
                          commentLen := cl })
                    else
                      .ret (none,
                        { file with
                          disknum := dn
                          diskWithCentralDir := dwcd
                          entryCount := ec
                          totalEntryCount := tec
                          centralDirSize := cds
                          centralDirOffest := cdo
                          commentLen := cl
                          comment := some (eocd + 22) })
                  else
                    .ret (none,
                      { file with
                        disknum := dn
                        diskWithCentralDir := dwcd
                        entryCount := ec
                        totalEntryCount := tec
                        centralDirSize := cds
                        centralDirOffest := cdo
                        commentLen := cl })

/-- Signature check and fixed-field reads of `read_central_directory_entry`
(C lines 89-100): returns `(cm, cs, us, fn, ex, fc, lhro)` = compression
method, compressed size, uncompressed size, file-name length, extra-field
length, file-comment length, local-header relative offset. -/
def entryFixedFields (b : Buffer) (p : Nat) :
    CResult (Except Zerr (Nat × Nat × Nat × Nat × Nat × Nat × Nat)) :=
  match read_le_int b (p + 0x00) with
  | none => .oob
  | some sig =>
    if sig ≠ 0x02014b50 then .ret (.error .BadSignature)
    else
      match read_le_short b (p + 0x0a) with
      | none => .oob
      | some cm =>
        match read_le_int b (p + 0x14) with
        | none => .oob
        | some cs =>
          match read_le_int b (p + 0x18) with
          | none => .oob
          | some us =>
            match read_le_short b (p + 0x1c) with
            | none => .oob
            | some fn =>
              match read_le_short b (p + 0x1e) with
              | none => .oob
              | some ex =>
                match read_le_short b (p + 0x20) with
                | none => .oob
                | some fc =>
                  match read_le_int b (p + 0x2a) with
                  | none => .oob
                  | some lhro => .ret (.ok (cm, cs, us, fn, ex, fc, lhro))

/-- Local-file-header cross-reference of `read_central_directory_entry`
(C lines 139-144): `p = file->buf + localHeaderRelOffset` is required to be
strictly below `bufLimit`, and then — with no further bound check — the
2-byte extra-field length at `p + 0x1c` is read.  The read can therefore
fall outside the buffer (`.oob`). -/
def localExtraLen (b : Buffer) (lhro : Nat) : CResult (Except Zerr Nat) :=
  if b.size ≤ lhro then .ret (.error .InvalidLocalHeaderOffset)
  else
    match read_le_short b (lhro + 0x1c) with
    | none => .oob
    | some exLocal => .ret (.ok exLocal)

/-- C `read_central_directory_entry`: decode one central-directory record at
cursor offset `p` with `len` bytes remaining (`ssize_t` in C, so `Int`).

On success it returns the filled entry together with the advanced cursor
`(p, len)` pair.  `dataOffset` is an `unsigned int` in C, hence the
`% 4294967296`; the size sanity checks compare against
`(unsigned int)(bufLimit - entry->data)`, also truncated to 32 bits. -/
def read_central_directory_entry (file : Zipfile) (p : Nat) (len : Int) :
    CResult (Except Zerr (Zipentry × Nat × Int)) :=
  if len < 46 then .ret (.error .Truncated)
  else
    match entryFixedFields file.buf p with
    | .oob => .oob
    | .ret (.error z) => .ret (.error z)
    | .ret (.ok (cm, cs, us, fn, ex, fc, lhro)) =>
      if fn = 0 then .ret (.error .MissingFileName)
      else if len.toNat - 46 < fn then .ret (.error .Truncated)
      else if len.toNat - 46 - fn < ex then .ret (.error .Truncated)
      else if len.toNat - 46 - fn - ex < fc then .ret (.error .Truncated)
      else
        match localExtraLen file.buf lhro with
        | .oob => .oob
        | .ret (.error z) => .ret (.error z)
        | .ret (.ok exLocal) =>
          if file.buf.size ≤ (lhro + 30 + fn + exLocal) % 4294967296 then
            .ret (.error .InvalidDataOffset)
          else if cm = 0 ∧
              (file.buf.size - (lhro + 30 + fn + exLocal) % 4294967296) %
                4294967296 < us then
            .ret (.error .InvalidDeclaredSize)
          else if cm = 8 ∧
              (file.buf.size - (lhro + 30 + fn + exLocal) % 4294967296) %
                4294967296 < cs then
            .ret (.error .InvalidDeclaredSize)
          else
            .ret (.ok
              ({ compressionMethod := cm, compressedSize := cs,
                 uncompressedSize := us, fileNameLength := fn,
                 fileName := p + 46,
                 data := (lhro + 30 + fn + exLocal) % 4294967296 },
               p + 46 + fn + ex + fc,
               ((len.toNat - 46 - fn - ex - fc : Nat) : Int)))

/-- The entry loop of `read_central_dir`:
`for (i = 0; i < file->totalEntryCount; i++)` — each successfully decoded
entry is prepended to `file->entries`; the first failure aborts the parse. -/
def entriesLoop : Zipfile → Nat → Int → Nat → CResult (Option Zerr × Zipfile)
  | file, _, _, 0 => .ret (none, file)
  | file, p, len, k + 1 =>
    match read_central_directory_entry file p len with
    | .oob => .oob
    | .ret (.error z) => .ret (some z, file)
    | .ret (.ok (e, q, len2)) =>
      entriesLoop { file with entries := e :: file.entries } q len2 k

/-- C `read_central_dir`: locate the EOCD, decode its fields, validate the
no-spanning invariants, then decode `totalEntryCount` entries. -/
def read_central_dir (file : Zipfile) : CResult (Option Zerr × Zipfile) :=
  if file.buf.size < 22 then .ret (some .NotAZip, file)
  else
    match findEocd file.buf with
    | none => .ret (some .NotAZip, file)
    | some e =>
      match read_central_dir_values file e ((file.buf.size : Int) - (e : Int)) with
      | .oob => .oob
      | .ret (some z, f1) => .ret (some z, f1)
      | .ret (none, f1) =>
        if f1.disknum ≠ 0 ∨ f1.diskWithCentralDir ≠ 0 ∨
            f1.entryCount ≠ f1.totalEntryCount then
          .ret (some .SpanningUnsupported, f1)
        else
          entriesLoop f1 f1.centralDirOffest
            ((f1.buf.size : Int) - (f1.centralDirOffest : Int)) f1.totalEntryCount

/-- Parse a raw buffer: `read_central_dir` on a fresh `Zipfile`. -/
def parse (b : Buffer) : CResult (Option Zerr × Zipfile) :=
  read_central_dir (mkZipfile b)

/-- Outcome of a parse: `ret none` = success, `ret (some z)` = failure with
error kind `z`, `oob` = the parse touched memory outside the buffer. -/
def parseOutcome (b : Buffer) : CResult (Option Zerr) :=
  match parse b with
  | .oob => .oob
  | .ret (z, _) => .ret z

/-- The entry collection of the file state after a parse (partial on error,
as in the C code, where `file->entries` has already been mutated). -/
def parseEntries (b : Buffer) : List Zipentry :=
  match parse b with
  | .oob => []
  | .ret (_, f) => f.entries

/-- The `totalEntryCount` field of the file state after a parse. -/
def parseTotal (b : Buffer) : Nat :=
  match parse b with
  | .oob => 0
  | .ret (_, f) => f.totalEntryCount

/-- Bounds invariant of a decoded entry over buffer `B`: the data offset is
strictly inside the buffer and, for the stored (0x0) and deflate (0x8)
methods, the declared size fits in the remaining buffer. -/
def entryWithinBounds (B : Buffer) (e : Zipentry) : Prop :=
  e.data < B.size ∧
  (e.compressionMethod = 0 → e.uncompressedSize ≤ B.size - e.data) ∧
  (e.compressionMethod = 8 → e.compressedSize ≤ B.size - e.data)

/-- Reference decoding of the entry sequence in on-disk declaration order
(first declared entry first).  This follows the specification wording
"the externally observed order is the reverse of on-disk declaration order"
and is compared against the prepend-to-list order the code produces. -/
def entriesInDeclarationOrder : Zipfile → Nat → Int → Nat → Option (List Zipentry)
  | _, _, _, 0 => some []
  | file, p, len, k + 1 =>
    match read_central_directory_entry file p len with
    | .ret (.ok (e, q, len2)) =>
      (entriesInDeclarationOrder file q len2 k).map (fun l => e :: l)
    | _ => none

/-- The full parse pipeline with the entry list kept in on-disk declaration
order (`none` when any stage fails). -/
def parseEntriesDecl (b : Buffer) : Option (List Zipentry) :=
  if b.size < 22 then none
  else
    match findEocd b with
    | none => none
    | some e =>
      match read_central_dir_values (mkZipfile b) e ((b.size : Int) - (e : Int)) with
      | .ret (none, f1) =>
        if f1.disknum ≠ 0 ∨ f1.diskWithCentralDir ≠ 0 ∨
            f1.entryCount ≠ f1.totalEntryCount then none
        else
          entriesInDeclarationOrder f1 f1.centralDirOffest
            ((f1.buf.size : Int) - (f1.centralDirOffest : Int)) f1.totalEntryCount
      | _ => none

/-- A well-formed 99-byte archive: a 30-byte local-header region (zeros) at
offset 0, one central-directory record at offset 30 for a stored entry with
1-byte name at offset 76, and the 22-byte EOCD at offset 77 declaring one
entry and central-directory offset 30. -/
def a1bytes : List Nat :=
  List.replicate 30 0
    ++ [0x50, 0x4b, 0x01, 0x02]
    ++ List.replicate 6 0
    ++ [0, 0]
    ++ List.replicate 8 0
    ++ [0, 0, 0, 0]
    ++ [0, 0, 0, 0]
    ++ [1, 0]
    ++ [0, 0]
    ++ [0, 0]
    ++ List.replicate 8 0
    ++ [0, 0, 0, 0]
    ++ [97]
    ++ [0x50, 0x4b, 0x05, 0x06]
    ++ [0, 0, 0, 0]
    ++ [1, 0, 1, 0]
    ++ [0, 0, 0, 0]
    ++ [30, 0, 0, 0]
    ++ [0, 0]

def a1buf : Buffer := Buffer.ofList a1bytes

/-- Same archive but with the EOCD declaring two entries (both counts 2):
the second entry decode hits the EOCD itself and fails, after the first
entry has already been prepended. -/
def a2bytes : List Nat :=
  List.replicate 30 0
    ++ [0x50, 0x4b, 0x01, 0x02]
    ++ List.replicate 6 0
    ++ [0, 0]
    ++ List.replicate 8 0
    ++ [0, 0, 0, 0]
    ++ [0, 0, 0, 0]
    ++ [1, 0]
    ++ [0, 0]
    ++ [0, 0]
    ++ List.replicate 8 0
    ++ [0, 0, 0, 0]
    ++ [97]
    ++ [0x50, 0x4b, 0x05, 0x06]
    ++ [0, 0, 0, 0]
    ++ [2, 0, 2, 0]
    ++ [0, 0, 0, 0]
    ++ [30, 0, 0, 0]
    ++ [0, 0]

def a2buf : Buffer := Buffer.ofList a2bytes

/-- A 22-byte EOCD whose disk number is 1 (spanning declared). -/
def s1bytes : List Nat :=
  [0x50, 0x4b, 0x05, 0x06, 1, 0] ++ List.replicate 16 0

def s1buf : Buffer := Buffer.ofList s1bytes

/-- A 22-byte empty archive (EOCD only, zero entries) followed by one junk
byte: both this buffer and its one-byte truncation parse successfully. -/
def b23bytes : List Nat :=
  [0x50, 0x4b, 0x05, 0x06] ++ List.replicate 19 0

def b23buf : Buffer := Buffer.ofList b23bytes

/-- A 69-byte archive whose single central-directory record declares
`localHeaderRelOffset = 68`: the offset is strictly inside the buffer, so the
C code passes the `p >= bufLimit` check and then reads the 2-byte local
extra-field length at offsets 96 and 97 — outside the buffer. -/
def c1bytes : List Nat :=
  [0x50, 0x4b, 0x01, 0x02]
    ++ List.replicate 6 0
    ++ [0, 0]
    ++ List.replicate 8 0
    ++ [0, 0, 0, 0]
    ++ [0, 0, 0, 0]
    ++ [1, 0]
    ++ [0, 0]
    ++ [0, 0]
    ++ List.replicate 8 0
    ++ [68, 0, 0, 0]
    ++ [97]
    ++ [0x50, 0x4b, 0x05, 0x06]
    ++ [0, 0, 0, 0]
    ++ [1, 0, 1, 0]
    ++ [0, 0, 0, 0]
    ++ [0, 0, 0, 0]
    ++ [0, 0]

def c1buf : Buffer := Buffer.ofList c1bytes

/-- A free-standing central-directory record (46 bytes + 1-byte name) with
compression method 99 and both declared sizes `0xFFFFFFFF`: decoding
succeeds with no size-bound check applied. -/
def bNCbytes : List Nat :=
  [0x50, 0x4b, 0x01, 0x02]
    ++ List.replicate 6 0
    ++ [99, 0]
    ++ List.replicate 8 0
    ++ [255, 255, 255, 255]
    ++ [255, 255, 255, 255]
    ++ [1, 0]
    ++ [0, 0]
    ++ [0, 0]
    ++ List.replicate 8 0
    ++ [0, 0, 0, 0]
    ++ [97]

def bNCbuf : Buffer := Buffer.ofList bNCbytes

/-- Like `bNCbytes` but with `localHeaderRelOffset = 16` and method 0; the
computed data offset `16 + 30 + 1 + 0 = 47` equals the buffer size, so the
decode fails with `InvalidDataOffset`. -/
def bIDbytes : List Nat :=
  [0x50, 0x4b, 0x01, 0x02]
    ++ List.replicate 6 0
    ++ [0, 0]
    ++ List.replicate 8 0
    ++ [0, 0, 0, 0]
    ++ [0, 0, 0, 0]
    ++ [1, 0]
    ++ [0, 0]
    ++ [0, 0]
    ++ List.replicate 8 0
    ++ [16, 0, 0, 0]
    ++ [97]

def bIDbuf : Buffer := Buffer.ofList bIDbytes

/-- Record bytes of a central-directory record with a 100-byte name and
`localHeaderRelOffset = 0xFFFFFFCE = 2^32 - 50`, placed in a buffer of size
`2^32 - 20`: the mathematical data offset `2^32 + 80` wraps to `80` in the
32-bit `unsigned int` arithmetic of the C code. -/
def bc6bytes : List Nat :=
  [0x50, 0x4b, 0x01, 0x02]
    ++ List.replicate 6 0
    ++ [99, 0]
    ++ List.replicate 8 0
    ++ [0, 0, 0, 0]
    ++ [0, 0, 0, 0]
    ++ [100, 0]
    ++ [0, 0]
    ++ [0, 0]
    ++ List.replicate 8 0
    ++ [0xce, 0xff, 0xff, 0xff]
    ++ List.replicate 100 97

/-- The near-4GiB buffer holding `bc6bytes` at offset 0 and zeros beyond. -/
def bc6buf : Buffer :=
  { size := 4294967276, byte := fun i => if i < 146 then bc6bytes.getD i 0 else 0 }

/-- The single entry descriptor the parse of `a1buf` produces. -/
def a1entry : Zipentry :=
  { compressionMethod := 0, compressedSize := 0, uncompressedSize := 0,
    fileNameLength := 1, fileName := 76, data := 31 }

/-- The file state after a successful parse of `a1buf`. -/
def a1file : Zipfile :=
  { buf := a1buf, entryCount := 1, totalEntryCount := 1, centralDirOffest := 30,
    entries := [a1entry] }

/-- The file state after the EOCD of `s1buf` is decoded (disk number 1). -/
def s1file : Zipfile :=
  { buf := s1buf, disknum := 1 }

/-- The entry descriptor decoded from `bc6buf`: its data offset has wrapped
to 80 although the mathematical offset is 2^32 + 80. -/
def bc6entry : Zipentry :=
  { compressionMethod := 99, compressedSize := 0, uncompressedSize := 0,
    fileNameLength := 100, fileName := 46, data := 80 }

/-- The entry decoded from `bNCbuf`: compression method 99, both declared
sizes 0xFFFFFFFF, accepted without any size-bound check. -/
def bNCentry : Zipentry :=
  { compressionMethod := 99, compressedSize := 4294967295,
    uncompressedSize := 4294967295, fileNameLength := 1, fileName := 46, data := 32 }

theorem byteAt_lt {b : Buffer} {i v : Nat} (h : byteAt b i = some v) : v < 256 := by
  unfold byteAt at h
  split at h
  · injection h with h2
    omega
  · simp at h

theorem byteAt_lt_size {b : Buffer} {i v : Nat} (h : byteAt b i = some v) : i < b.size := by
  unfold byteAt at h
  split at h
  · assumption
  · simp at h

theorem lor_shiftLeft_mod (x y k m : Nat) (h : m ≤ k) :
    (x ||| y <<< k) % 2 ^ m = x % 2 ^ m := by
  apply Nat.eq_of_testBit_eq
  intro i
  rw [Nat.testBit_mod_two_pow, Nat.testBit_mod_two_pow, Nat.testBit_lor,
    Nat.testBit_shiftLeft]
  by_cases hi : i < m
  · have hk : ¬ (k ≤ i) := by omega
    simp [hi, hk]
  · simp [hi]

theorem read_le_short_lt {b : Buffer} {off v : Nat} (h : read_le_short b off = some v) :
    v < 65536 := by
  unfold read_le_short at h
  split at h
  · simp at h
  rename_i b0 hb0
  split at h
  · simp at h
  rename_i b1 hb1
  injection h with h2
  have h0 := byteAt_lt hb0
  have h1 := byteAt_lt hb1
  have e16 : (2 : Nat) ^ 16 = 65536 := by norm_num
  have hs : b1 <<< 8 = b1 * 256 := by
    rw [Nat.shiftLeft_eq]
  have : b0 ||| b1 <<< 8 < 2 ^ 16 :=
    Nat.or_lt_two_pow (by omega) (by rw [hs]; omega)
  omega

theorem read_le_int_sig_first_byte {b : Buffer} {i : Nat}
    (h : read_le_int b i = some 0x06054b50) : byteAt b i = some 0x50 := by
  unfold read_le_int at h
  split at h
  · simp at h
  rename_i b0 hb0
  split at h
  · simp at h
  rename_i b1 hb1
  split at h
  · simp at h
  rename_i b2 hb2
  split at h
  · simp at h
  rename_i b3 hb3
  injection h with h2
  have h0 := byteAt_lt hb0
  have e8 : (2 : Nat) ^ 8 = 256 := by norm_num
  have m1 : (b0 ||| b1 <<< 8 ||| b2 <<< 16 ||| b3 <<< 24) % 2 ^ 8 = b0 % 2 ^ 8 := by
    rw [lor_shiftLeft_mod _ _ _ _ (by omega), lor_shiftLeft_mod _ _ _ _ (by omega),
      lor_shiftLeft_mod _ _ _ _ (by omega)]
  rw [h2] at m1
  have hb : b0 % 2 ^ 8 = b0 := Nat.mod_eq_of_lt (by omega)
  have : b0 = 0x50 := by
    rw [hb, e8] at m1
    omega
  rw [this] at hb0
  exact hb0

theorem matchAt_eq_noPrecheck (b : Buffer) (i : Nat) :
    matchAt b i = matchAtNoPrecheck b i := by
  unfold matchAt matchAtNoPrecheck
  by_cases hr : read_le_int b i = some 0x06054b50
  · have hb : byteAt b i = some 0x50 := read_le_int_sig_first_byte hr
    simp [hr, hb]
  · simp [hr]

theorem scanAuxC_steps (b : Buffer) (s : Nat) : ∀ k, (scanAuxC b s k).2 ≤ k + 1 := by
  intro k
  induction k with
  | zero =>
    unfold scanAuxC
    split <;> simp
  | succ k ih =>
    unfold scanAuxC
    split
    · simp
    · simpa using Nat.succ_le_succ ih

theorem scanAuxC_none_iff (b : Buffer) (s : Nat) :
    ∀ k, (scanAuxC b s k).1 = none ↔ ∀ j, j ≤ k → matchAt b (s + j) = false := by
  intro k
  induction k with
  | zero =>
    unfold scanAuxC
    constructor
    · intro h j hj
      have hj0 : j = 0 := by omega
      subst hj0
      split at h
      · simp at h
      · rename_i hm
        simpa using hm
    · intro h
      have h0 : matchAt b s = false := by simpa using h 0 (Nat.le_refl 0)
      rw [if_neg (by simp [h0])]
  | succ k ih =>
    unfold scanAuxC
    constructor
    · intro h j hj
      split at h
      · simp at h
      · rename_i hm
        rcases Nat.lt_or_ge j (k + 1) with hj2 | hj2
        · exact (ih.mp (by simpa using h)) j (by omega)
        · have hjk : j = k + 1 := by omega
          subst hjk
          simpa using hm
    · intro h
      have hm : matchAt b (s + (k + 1)) = false := h (k + 1) (Nat.le_refl _)
      rw [if_neg (by simp [hm])]
      simpa using ih.mpr fun j hj => h j (by omega)

theorem scanAuxC_some {b : Buffer} {s : Nat} :
    ∀ {k e : Nat}, (scanAuxC b s k).1 = some e →
      matchAt b e = true ∧ s ≤ e ∧ e ≤ s + k ∧
        ∀ q, e < q → q ≤ s + k → matchAt b q = false := by
  intro k
  induction k with
  | zero =>
    intro e h
    unfold scanAuxC at h
    split at h
    · rename_i hm
      injection h with h2
      subst h2
      exact ⟨hm, Nat.le_refl _, by omega, fun q hq1 hq2 => by omega⟩
    · simp at h
  | succ k ih =>
    intro e h
    unfold scanAuxC at h
    split at h
    · rename_i hm
      injection h with h2
      subst h2
      exact ⟨hm, by omega, by omega, fun q hq1 hq2 => by omega⟩
    · rename_i hm
      simp only at h
      obtain ⟨h1, h2, h3, h4⟩ := ih h
      refine ⟨h1, h2, by omega, fun q hq1 hq2 => ?_⟩
      rcases Nat.lt_or_ge q (s + (k + 1)) with hq3 | hq3
      · exact h4 q hq1 (by omega)
      · have : q = s + (k + 1) := by omega
        subst this
        simpa using hm

theorem scanAuxC_complete {b : Buffer} {s : Nat} :
    ∀ {k e : Nat}, s ≤ e → e ≤ s + k → matchAt b e = true →
      (∀ q, e < q → q ≤ s + k → matchAt b q = false) →
      (scanAuxC b s k).1 = some e := by
  intro k
  induction k with
  | zero =>
    intro e h1 h2 h3 _
    have : e = s := by omega
    subst this
    unfold scanAuxC
    rw [if_pos h3]
  | succ k ih =>
    intro e h1 h2 h3 h4
    unfold scanAuxC
    rcases Nat.lt_or_ge e (s + (k + 1)) with he | he
    · have hm : matchAt b (s + (k + 1)) = false := h4 _ he (Nat.le_refl _)
      rw [if_neg (by simp [hm])]
      simpa using ih h1 (by omega) h3 fun q hq1 hq2 => h4 q hq1 (by omega)
    · have : e = s + (k + 1) := by omega
      subst this
      rw [if_pos h3]

theorem eocdWindow_top {b : Buffer} (h : 22 ≤ b.size) :
    eocdWindowStart b + (b.size - 4 - eocdWindowStart b) = b.size - 4 := by
  unfold eocdWindowStart
  split <;> omega

theorem byteAt_truncateLast {b : Buffer} {i : Nat} (h : i + 1 < b.size) :
    byteAt (truncateLast b) i = byteAt b i := by
  unfold byteAt truncateLast
  simp only
  rw [if_pos (by omega), if_pos (by omega)]

theorem read_le_short_truncateLast {b : Buffer} {off : Nat} (h : off + 2 < b.size) :
    read_le_short (truncateLast b) off = read_le_short b off := by
  unfold read_le_short
  rw [byteAt_truncateLast (by omega), byteAt_truncateLast (by omega)]

theorem read_le_int_truncateLast {b : Buffer} {off : Nat} (h : off + 4 < b.size) :
    read_le_int (truncateLast b) off = read_le_int b off := by
  unfold read_le_int
  rw [byteAt_truncateLast (by omega), byteAt_truncateLast (by omega),
    byteAt_truncateLast (by omega), byteAt_truncateLast (by omega)]

theorem matchAt_truncateLast {b : Buffer} {i : Nat} (h : i + 4 < b.size) :
    matchAt (truncateLast b) i = matchAt b i := by
  unfold matchAt
  rw [byteAt_truncateLast (by omega), read_le_int_truncateLast (by omega)]

theorem byteAt_isSome {b : Buffer} {i : Nat} (h : i < b.size) :
    byteAt b i = some (b.byte i % 256) := by
  unfold byteAt
  rw [if_pos h]

theorem read_le_short_isSome {b : Buffer} {off : Nat} (h : off + 1 < b.size) :
    ∃ v, read_le_short b off = some v := by
  unfold read_le_short
  rw [byteAt_isSome (by omega), byteAt_isSome (by omega)]
  exact ⟨_, rfl⟩

theorem read_le_int_isSome {b : Buffer} {off : Nat} (h : off + 3 < b.size) :
    ∃ v, read_le_int b off = some v := by
  unfold read_le_int
  rw [byteAt_isSome (by omega), byteAt_isSome (by omega), byteAt_isSome (by omega),
    byteAt_isSome (by omega)]
  exact ⟨_, rfl⟩

theorem entryFixedFields_ok_spec {b : Buffer} {p cm cs us fn ex fc lhro : Nat}
    (h : entryFixedFields b p = .ret (.ok (cm, cs, us, fn, ex, fc, lhro))) :
    read_le_int b (p + 0x00) = some 0x02014b50 ∧
    read_le_short b (p + 0x0a) = some cm ∧
    read_le_int b (p + 0x14) = some cs ∧
    read_le_int b (p + 0x18) = some us ∧
    read_le_short b (p + 0x1c) = some fn ∧
    read_le_short b (p + 0x1e) = some ex ∧
    read_le_short b (p + 0x20) = some fc ∧
    read_le_int b (p + 0x2a) = some lhro := by
  unfold entryFixedFields at h
  split at h
  · simp at h
  rename_i sig hsig
  split at h
  · simp at h
  rename_i hsigv
  split at h
  · simp at h
  rename_i cm2 hcm
  split at h
  · simp at h
  rename_i cs2 hcs
  split at h
  · simp at h
  rename_i us2 hus
  split at h
  · simp at h
  rename_i fn2 hfn
  split at h
  · simp at h
  rename_i ex2 hex
  split at h
  · simp at h
  rename_i fc2 hfc
  split at h
  · simp at h
  rename_i lhro2 hlhro
  simp only [CResult.ret.injEq, Except.ok.injEq, Prod.mk.injEq] at h
  obtain ⟨e1, e2, e3, e4, e5, e6, e7⟩ := h
  subst e1; subst e2; subst e3; subst e4; subst e5; subst e6; subst e7
  have hv : sig = 0x02014b50 := by omega
  subst hv
  exact ⟨hsig, hcm, hcs, hus, hfn, hex, hfc, hlhro⟩

theorem entryFixedFields_err_spec {b : Buffer} {p : Nat} {z : Zerr}
    (h : entryFixedFields b p = .ret (.error z)) : z = .BadSignature := by
  unfold entryFixedFields at h
  split at h
  · simp at h
  rename_i sig hsig
  split at h
  · simp only [CResult.ret.injEq, Except.error.injEq] at h
    exact h.symm
  rename_i hsigv
  split at h
  · simp at h
  rename_i cm2 hcm
  split at h
  · simp at h
  rename_i cs2 hcs
  split at h
  · simp at h
  rename_i us2 hus
  split at h
  · simp at h
  rename_i fn2 hfn
  split at h
  · simp at h
  rename_i ex2 hex
  split at h
  · simp at h
  rename_i fc2 hfc
  split at h
  · simp at h
  rename_i lhro2 hlhro
  simp at h

theorem localExtraLen_ok_spec {b : Buffer} {lhro exL : Nat}
    (h : localExtraLen b lhro = .ret (.ok exL)) :
    lhro < b.size ∧ read_le_short b (lhro + 0x1c) = some exL := by
  unfold localExtraLen at h
  split at h
  · simp at h
  rename_i hsz
  split at h
  · simp at h
  rename_i exL2 hexl
  simp only [CResult.ret.injEq, Except.ok.injEq] at h
  subst h
  exact ⟨by omega, hexl⟩

theorem localExtraLen_err_spec {b : Buffer} {lhro : Nat} {z : Zerr}
    (h : localExtraLen b lhro = .ret (.error z)) : z = .InvalidLocalHeaderOffset := by
  unfold localExtraLen at h
  split at h
  · simp only [CResult.ret.injEq, Except.error.injEq] at h
    exact h.symm
  rename_i hsz
  split at h
  · simp at h
  rename_i exL2 hexl
  simp at h

theorem decode_ok_spec {file : Zipfile} {p : Nat} {len : Int} {e : Zipentry} {q : Nat}
    {len2 : Int}
    (h : read_central_directory_entry file p len = .ret (.ok (e, q, len2))) :
    ∃ cm cs us fn ex fc lhro exLocal,
      46 ≤ len ∧
      read_le_short file.buf (p + 0x0a) = some cm ∧
      read_le_int file.buf (p + 0x14) = some cs ∧
      read_le_int file.buf (p + 0x18) = some us ∧
      read_le_short file.buf (p + 0x1c) = some fn ∧
      read_le_short file.buf (p + 0x1e) = some ex ∧
      read_le_short file.buf (p + 0x20) = some fc ∧
      read_le_int file.buf (p + 0x2a) = some lhro ∧
      read_le_short file.buf (lhro + 0x1c) = some exLocal ∧
      fn ≠ 0 ∧ fn ≤ len.toNat - 46 ∧ ex ≤ len.toNat - 46 - fn ∧
      fc ≤ len.toNat - 46 - fn - ex ∧
      lhro < file.buf.size ∧
      (lhro + 30 + fn + exLocal) % 4294967296 < file.buf.size ∧
      (cm = 0 → us ≤ (file.buf.size - (lhro + 30 + fn + exLocal) % 4294967296)
        % 4294967296) ∧
      (cm = 8 → cs ≤ (file.buf.size - (lhro + 30 + fn + exLocal) % 4294967296)
        % 4294967296) ∧
      e = { compressionMethod := cm, compressedSize := cs, uncompressedSize := us,
            fileNameLength := fn, fileName := p + 46,
            data := (lhro + 30 + fn + exLocal) % 4294967296 } ∧
      q = p + 46 + fn + ex + fc ∧
      len2 = ((len.toNat - 46 - fn - ex - fc : Nat) : Int) := by
  unfold read_central_directory_entry at h
  split at h
  · simp at h
  rename_i hlen
  split at h
  · simp at h
  · simp at h
  rename_i cm cs us fn ex fc lhro hff
  split at h
  · simp at h
  rename_i hfn0
  split at h
  · simp at h
  rename_i hfnrem
  split at h
  · simp at h
  rename_i hexrem
  split at h
  · simp at h
  rename_i hfcrem
  split at h
  · simp at h
  · simp at h
  rename_i exLocal hexl
  split at h
  · simp at h
  rename_i hdata
  split at h
  · simp at h
  rename_i hcm0
  split at h
  · simp at h
  rename_i hcm8
  simp only [CResult.ret.injEq, Except.ok.injEq, Prod.mk.injEq] at h
  obtain ⟨he, hq, hl2⟩ := h
  obtain ⟨hsig, hcm, hcs, hus, hfn, hex, hfc, hlhro⟩ := entryFixedFields_ok_spec hff
  obtain ⟨hlhrosz, hexlr⟩ := localExtraLen_ok_spec hexl
  exact ⟨cm, cs, us, fn, ex, fc, lhro, exLocal, by omega, hcm, hcs, hus, hfn, hex, hfc,
    hlhro, hexlr, hfn0, by omega, by omega, by omega, hlhrosz, by omega,
    fun hc => by omega, fun hc => by omega, he.symm, hq.symm, hl2.symm⟩

theorem decode_invalidDataOffset_spec {file : Zipfile} {p : Nat} {len : Int}
    (h : read_central_directory_entry file p len = .ret (.error .InvalidDataOffset)) :
    ∃ fn lhro exLocal,
      read_le_short file.buf (p + 0x1c) = some fn ∧
      read_le_int file.buf (p + 0x2a) = some lhro ∧
      read_le_short file.buf (lhro + 0x1c) = some exLocal ∧
      file.buf.size ≤ (lhro + 30 + fn + exLocal) % 4294967296 := by
  unfold read_central_directory_entry at h
  split at h
  · simp at h
  rename_i hlen
  split at h
  · simp at h
  · rename_i z hff
    simp only [CResult.ret.injEq, Except.error.injEq] at h
    subst h
    exact absurd (entryFixedFields_err_spec hff) (by simp)
  rename_i cm cs us fn ex fc lhro hff
  split at h
  · simp at h
  rename_i hfn0
  split at h
  · simp at h
  rename_i hfnrem
  split at h
  · simp at h
  rename_i hexrem
  split at h
  · simp at h
  rename_i hfcrem
  split at h
  · simp at h
  · rename_i z hle
    simp only [CResult.ret.injEq, Except.error.injEq] at h
    subst h
    exact absurd (localExtraLen_err_spec hle) (by simp)
  rename_i exLocal hexl
  split at h
  · rename_i hdata
    obtain ⟨hsig, hcm, hcs, hus, hfn, hex, hfc, hlhro⟩ := entryFixedFields_ok_spec hff
    obtain ⟨hlhrosz, hexlr⟩ := localExtraLen_ok_spec hexl
    exact ⟨fn, lhro, exLocal, hfn, hlhro, hexlr, hdata⟩
  rename_i hdata
  split at h
  · simp at h
  rename_i hcm0
  split at h
  · simp at h
  rename_i hcm8
  simp at h

theorem decode_err_ne_NotAZip {file : Zipfile} {p : Nat} {len : Int} {z : Zerr}
    (h : read_central_directory_entry file p len = .ret (.error z)) : z ≠ .NotAZip := by
  unfold read_central_directory_entry at h
  split at h
  · simp only [CResult.ret.injEq, Except.error.injEq] at h
    subst h
    simp
  rename_i hlen
  split at h
  · simp at h
  · rename_i z2 hff
    simp only [CResult.ret.injEq, Except.error.injEq] at h
    subst h
    rw [entryFixedFields_err_spec hff]
    simp
  rename_i cm cs us fn ex fc lhro hff
  split at h
  · simp only [CResult.ret.injEq, Except.error.injEq] at h
    subst h
    simp
  rename_i hfn0
  split at h
  · simp only [CResult.ret.injEq, Except.error.injEq] at h
    subst h
    simp
  rename_i hfnrem
  split at h
  · simp only [CResult.ret.injEq, Except.error.injEq] at h
    subst h
    simp
  rename_i hexrem
  split at h
  · simp only [CResult.ret.injEq, Except.error.injEq] at h
    subst h
    simp
  rename_i hfcrem
  split at h
  · simp at h
  · rename_i z2 hle
    simp only [CResult.ret.injEq, Except.error.injEq] at h
    subst h
    rw [localExtraLen_err_spec hle]
    simp
  rename_i exLocal hexl
  split at h
  · simp only [CResult.ret.injEq, Except.error.injEq] at h
    subst h
    simp
  rename_i hdata
  split at h
  · simp only [CResult.ret.injEq, Except.error.injEq] at h
    subst h
    simp
  rename_i hcm0
  split at h
  · simp only [CResult.ret.injEq, Except.error.injEq] at h
    subst h
    simp
  rename_i hcm8
  simp at h

theorem zf_entries_set (file : Zipfile) (a : List Zipentry) :
    ({ file with entries := a } : Zipfile).entries = a := rfl

theorem zf_buf_set (file : Zipfile) (a : List Zipentry) :
    ({ file with entries := a } : Zipfile).buf = file.buf := rfl

theorem zf_set_set (file : Zipfile) (a x : List Zipentry) :
    ({ ({ file with entries := a }) with entries := x } : Zipfile) =
      { file with entries := x } := rfl

theorem zf_set_self (file : Zipfile) :
    ({ file with entries := file.entries } : Zipfile) = file := rfl

theorem decode_entries_congr (file : Zipfile) (x : List Zipentry) (p : Nat) (len : Int) :
    read_central_directory_entry { file with entries := x } p len =
      read_central_directory_entry file p len := rfl

theorem declOrder_entries_congr :
    ∀ (k : Nat) (file : Zipfile) (x : List Zipentry) (p : Nat) (len : Int),
      entriesInDeclarationOrder { file with entries := x } p len k =
        entriesInDeclarationOrder file p len k := by
  intro k
  induction k with
  | zero =>
    intro file x p len
    rfl
  | succ k ih =>
    intro file x p len
    unfold entriesInDeclarationOrder
    rw [decode_entries_congr]
    cases hr : read_central_directory_entry file p len with
    | oob => rfl
    | ret r =>
      cases r with
      | error z => rfl
      | ok t =>
        obtain ⟨e, q, len2⟩ := t
        simp only
        rw [ih]

theorem decode_entry_bounds {file : Zipfile} {p : Nat} {len : Int} {e : Zipentry}
    {q : Nat} {len2 : Int}
    (h : read_central_directory_entry file p len = .ret (.ok (e, q, len2))) :
    entryWithinBounds file.buf e := by
  obtain ⟨cm, cs, us, fn, ex, fc, lhro, exL, hlen, hcm, hcs, hus, hfn, hex, hfc, hlhro,
    hexl, hfn0, hr1, hr2, hr3, hlsz, hdsz, hm0, hm8, he, hq, hl2⟩ := decode_ok_spec h
  subst he
  unfold entryWithinBounds
  dsimp only
  refine ⟨hdsz, fun h0 => ?_, fun h8 => ?_⟩
  · have h1 := hm0 h0
    have h2 := Nat.mod_le (file.buf.size - (lhro + 30 + fn + exL) % 4294967296) 4294967296
    omega
  · have h1 := hm8 h8
    have h2 := Nat.mod_le (file.buf.size - (lhro + 30 + fn + exL) % 4294967296) 4294967296
    omega

theorem decode_ok_advance {file : Zipfile} {p : Nat} {len : Int} {e : Zipentry}
    {q : Nat} {len2 : Int}
    (h : read_central_directory_entry file p len = .ret (.ok (e, q, len2))) :
    p + 46 ≤ q ∧ len2 ≤ len - 46 := by
  obtain ⟨cm, cs, us, fn, ex, fc, lhro, exL, hlen, hcm, hcs, hus, hfn, hex, hfc, hlhro,
    hexl, hfn0, hr1, hr2, hr3, hlsz, hdsz, hm0, hm8, he, hq, hl2⟩ := decode_ok_spec h
  subst hq
  subst hl2
  constructor
  · omega
  · omega

theorem entriesLoop_ok_spec :
    ∀ (k : Nat) (file : Zipfile) (p : Nat) (len : Int) (f2 : Zipfile),
      entriesLoop file p len k = .ret (none, f2) →
      ∃ l : List Zipentry,
        entriesInDeclarationOrder file p len k = some l ∧
        f2 = { file with entries := l.reverse ++ file.entries } ∧
        l.length = k := by
  intro k
  induction k with
  | zero =>
    intro file p len f2 h
    unfold entriesLoop at h
    simp only [CResult.ret.injEq, Prod.mk.injEq, true_and] at h
    refine ⟨[], rfl, ?_, rfl⟩
    rw [← h]
    cases file
    simp
  | succ k ih =>
    intro file p len f2 h
    unfold entriesLoop at h
    split at h
    · simp at h
    · simp at h
    · rename_i e q len2 hr
      obtain ⟨l, hdecl, hshape, hlen⟩ := ih _ _ _ _ h
      rw [declOrder_entries_congr] at hdecl
      rw [zf_set_set, zf_entries_set] at hshape
      refine ⟨e :: l, ?_, ?_, by simpa using hlen⟩
      · unfold entriesInDeclarationOrder
        rw [hr]
        dsimp only
        rw [hdecl]
        rfl
      · rw [hshape]
        cases file
        simp

theorem entriesLoop_err_spec :
    ∀ (k : Nat) (file : Zipfile) (p : Nat) (len : Int) (z : Zerr) (f2 : Zipfile),
      entriesLoop file p len k = .ret (some z, f2) →
      ∃ l : List Zipentry,
        f2 = { file with entries := l ++ file.entries } ∧ l.length < k := by
  intro k
  induction k with
  | zero =>
    intro file p len z f2 h
    unfold entriesLoop at h
    simp at h
  | succ k ih =>
    intro file p len z f2 h
    unfold entriesLoop at h
    split at h
    · simp at h
    · rename_i z2 hr
      simp only [CResult.ret.injEq, Prod.mk.injEq] at h
      obtain ⟨h1, h2⟩ := h
      refine ⟨[], ?_, by simp⟩
      rw [← h2]
      cases file
      simp
    · rename_i e q len2 hr
      obtain ⟨l, hshape, hlen⟩ := ih _ _ _ _ _ h
      rw [zf_set_set, zf_entries_set] at hshape
      refine ⟨l ++ [e], ?_, by simp; omega⟩
      rw [hshape]
      cases file
      simp

theorem entriesLoop_err_ne_NotAZip :
    ∀ (k : Nat) (file : Zipfile) (p : Nat) (len : Int) (z : Zerr) (f2 : Zipfile),
      entriesLoop file p len k = .ret (some z, f2) → z ≠ .NotAZip := by
  intro k
  induction k with
  | zero =>
    intro file p len z f2 h
    unfold entriesLoop at h
    simp at h
  | succ k ih =>
    intro file p len z f2 h
    unfold entriesLoop at h
    split at h
    · simp at h
    · rename_i z2 hr
      simp only [CResult.ret.injEq, Prod.mk.injEq] at h
      obtain ⟨h1, h2⟩ := h
      injection h1 with h1
      subst h1
      exact decode_err_ne_NotAZip hr
    · rename_i e q len2 hr
      exact ih _ _ _ _ _ h

theorem entriesLoop_bounds :
    ∀ (k : Nat) (file : Zipfile) (p : Nat) (len : Int) (f2 : Zipfile),
      entriesLoop file p len k = .ret (none, f2) →
      (∀ e, e ∈ file.entries → entryWithinBounds file.buf e) →
      ∀ e, e ∈ f2.entries → entryWithinBounds file.buf e := by
  intro k
  induction k with
  | zero =>
    intro file p len f2 h hinv
    unfold entriesLoop at h
    simp only [CResult.ret.injEq, Prod.mk.injEq, true_and] at h
    rw [← h]
    exact hinv
  | succ k ih =>
    intro file p len f2 h hinv
    unfold entriesLoop at h
    split at h
    · simp at h
    · simp at h
    · rename_i e0 q len2 hr
      have hb := decode_entry_bounds hr
      have := ih _ _ _ _ h
      rw [zf_buf_set] at this
      apply this
      intro e2 he2
      rw [zf_entries_set] at he2
      cases he2 with
      | head => exact hb
      | tail _ htail => exact hinv _ htail

theorem mk_buf (b : Buffer) : (mkZipfile b).buf = b := rfl

theorem mk_entries (b : Buffer) : (mkZipfile b).entries = [] := rfl

theorem values_err_Truncated {file : Zipfile} {e : Nat} {len : Int} {z : Zerr}
    {f1 : Zipfile}
    (h : read_central_dir_values file e len = .ret (some z, f1)) : z = .Truncated := by
  unfold read_central_dir_values at h
  split at h
  · simp only [CResult.ret.injEq, Prod.mk.injEq, Option.some.injEq] at h
    exact h.1.symm
  rename_i hlen
  split at h
  · simp at h
  rename_i dn hdn
  split at h
  · simp at h
  rename_i dwcd hdwcd
  split at h
  · simp at h
  rename_i ec hec
  split at h
  · simp at h
  rename_i tec htec
  split at h
  · simp at h
  rename_i cds hcds
  split at h
  · simp at h
  rename_i cdo hcdo
  split at h
  · simp at h
  rename_i cl hcl
  split at h
  · split at h
    · simp only [CResult.ret.injEq, Prod.mk.injEq, Option.some.injEq] at h
      exact h.1.symm
    · simp at h
  · simp at h

theorem values_preserves {file : Zipfile} {e : Nat} {len : Int} {z : Option Zerr}
    {f1 : Zipfile}
    (h : read_central_dir_values file e len = .ret (z, f1)) :
    f1.buf = file.buf ∧ f1.entries = file.entries := by
  unfold read_central_dir_values at h
  split at h
  · simp only [CResult.ret.injEq, Prod.mk.injEq] at h
    rw [← h.2]
    exact ⟨rfl, rfl⟩
  rename_i hlen
  split at h
  · simp at h
  rename_i dn hdn
  split at h
  · simp at h
  rename_i dwcd hdwcd
  split at h
  · simp at h
  rename_i ec hec
  split at h
  · simp at h
  rename_i tec htec
  split at h
  · simp at h
  rename_i cds hcds
  split at h
  · simp at h
  rename_i cdo hcdo
  split at h
  · simp at h
  rename_i cl hcl
  split at h
  · split at h
    · simp only [CResult.ret.injEq, Prod.mk.injEq] at h
      rw [← h.2]
      exact ⟨rfl, rfl⟩
    · simp only [CResult.ret.injEq, Prod.mk.injEq] at h
      rw [← h.2]
      exact ⟨rfl, rfl⟩
  · simp only [CResult.ret.injEq, Prod.mk.injEq] at h
    rw [← h.2]
    exact ⟨rfl, rfl⟩

theorem values_len_short {file : Zipfile} {e : Nat} {len : Int} (h : len < 22) :
    read_central_dir_values file e len = .ret (some .Truncated, file) := by
  unfold read_central_dir_values
  rw [if_pos h]

theorem values_comment_truncated {file : Zipfile} {e : Nat} {len : Int} {cl : Nat}
    (hlen : 22 ≤ len)
    (hcl : read_le_short file.buf (e + 0x14) = some cl)
    (hpos : 0 < cl) (hover : len < 22 + (cl : Int))
    (hin : e + 21 < file.buf.size) :
    ∃ f1, read_central_dir_values file e len = .ret (some .Truncated, f1) := by
  obtain ⟨dn, hdn⟩ := @read_le_short_isSome file.buf (e + 0x04) (by omega)
  obtain ⟨dwcd, hdwcd⟩ := @read_le_short_isSome file.buf (e + 0x06) (by omega)
  obtain ⟨ec, hec⟩ := @read_le_short_isSome file.buf (e + 0x08) (by omega)
  obtain ⟨tec, htec⟩ := @read_le_short_isSome file.buf (e + 0x0a) (by omega)
  obtain ⟨cds, hcds⟩ := @read_le_int_isSome file.buf (e + 0x0c) (by omega)
  obtain ⟨cdo, hcdo⟩ := @read_le_int_isSome file.buf (e + 0x10) (by omega)
  refine ⟨{ file with
    disknum := dn
    diskWithCentralDir := dwcd
    entryCount := ec
    totalEntryCount := tec
    centralDirSize := cds
    centralDirOffest := cdo
    commentLen := cl }, ?_⟩
  unfold read_central_dir_values
  rw [if_neg (by omega)]
  simp only [hdn, hdwcd, hec, htec, hcds, hcdo, hcl]
  rw [if_pos hpos, if_pos hover]

theorem rcd_small {file : Zipfile} (h : file.buf.size < 22) :
    read_central_dir file = .ret (some .NotAZip, file) := by
  unfold read_central_dir
  rw [if_pos h]

theorem rcd_nofind {file : Zipfile} (h1 : ¬ file.buf.size < 22)
    (h2 : findEocd file.buf = none) :
    read_central_dir file = .ret (some .NotAZip, file) := by
  unfold read_central_dir
  rw [if_neg h1, h2]

theorem rcd_values_err {file : Zipfile} {e : Nat} {z : Zerr} {f1 : Zipfile}
    (h1 : ¬ file.buf.size < 22) (h2 : findEocd file.buf = some e)
    (h3 : read_central_dir_values file e ((file.buf.size : Int) - (e : Int)) =
      .ret (some z, f1)) :
    read_central_dir file = .ret (some z, f1) := by
  unfold read_central_dir
  rw [if_neg h1, h2]
  dsimp only
  rw [h3]

theorem rcd_spanning {file : Zipfile} {e : Nat} {f1 : Zipfile}
    (h1 : ¬ file.buf.size < 22) (h2 : findEocd file.buf = some e)
    (h3 : read_central_dir_values file e ((file.buf.size : Int) - (e : Int)) =
      .ret (none, f1))
    (h4 : f1.disknum ≠ 0 ∨ f1.diskWithCentralDir ≠ 0 ∨
      f1.entryCount ≠ f1.totalEntryCount) :
    read_central_dir file = .ret (some .SpanningUnsupported, f1) := by
  unfold read_central_dir
  rw [if_neg h1, h2]
  dsimp only
  rw [h3]
  dsimp only
  rw [if_pos h4]

theorem rcd_loop {file : Zipfile} {e : Nat} {f1 : Zipfile}
    (h1 : ¬ file.buf.size < 22) (h2 : findEocd file.buf = some e)
    (h3 : read_central_dir_values file e ((file.buf.size : Int) - (e : Int)) =
      .ret (none, f1))
    (h4 : ¬ (f1.disknum ≠ 0 ∨ f1.diskWithCentralDir ≠ 0 ∨
      f1.entryCount ≠ f1.totalEntryCount)) :
    read_central_dir file =
      entriesLoop f1 f1.centralDirOffest
        ((f1.buf.size : Int) - (f1.centralDirOffest : Int)) f1.totalEntryCount := by
  unfold read_central_dir
  rw [if_neg h1, h2]
  dsimp only
  rw [h3]
  dsimp only
  rw [if_neg h4]

theorem zf_total_set (file : Zipfile) (a : List Zipentry) :
    ({ file with entries := a } : Zipfile).totalEntryCount = file.totalEntryCount := rfl

theorem rcd_values_oob {file : Zipfile} {e : Nat}
    (h1 : ¬ file.buf.size < 22) (h2 : findEocd file.buf = some e)
    (h3 : read_central_dir_values file e ((file.buf.size : Int) - (e : Int)) = .oob) :
    read_central_dir file = .oob := by
  unfold read_central_dir
  rw [if_neg h1, h2]
  dsimp only
  rw [h3]

theorem findEocd_some_size {b : Buffer} {e : Nat} (h : findEocd b = some e) :
    22 ≤ b.size := by
  unfold findEocd at h
  split at h
  · simp at h
  rename_i hsz
  omega

theorem findEocd_none_iff {b : Buffer} (hsz : ¬ b.size < 22) :
    findEocd b = none ↔
      ∀ q, eocdWindowStart b ≤ q → q + 4 ≤ b.size → matchAt b q = false := by
  have htop := @eocdWindow_top b (by omega)
  unfold findEocd
  rw [if_neg hsz]
  unfold scanAux
  rw [scanAuxC_none_iff]
  constructor
  · intro h q hq1 hq2
    have hj : q - eocdWindowStart b ≤ b.size - 4 - eocdWindowStart b := by omega
    have h2 := h (q - eocdWindowStart b) hj
    rwa [show eocdWindowStart b + (q - eocdWindowStart b) = q from by omega] at h2
  · intro h j hj
    apply h
    · omega
    · omega

theorem findEocd_some_spec {b : Buffer} {e : Nat} (h : findEocd b = some e) :
    eocdWindowStart b ≤ e ∧ e + 4 ≤ b.size ∧ matchAt b e = true ∧
      ∀ q, e < q → q + 4 ≤ b.size → matchAt b q = false := by
  have hsz := findEocd_some_size h
  have htop := @eocdWindow_top b hsz
  unfold findEocd at h
  split at h
  · simp at h
  rename_i hsz2
  unfold scanAux at h
  obtain ⟨h1, h2, h3, h4⟩ := scanAuxC_some h
  refine ⟨h2, by omega, h1, fun q hq1 hq2 => h4 q hq1 (by omega)⟩

theorem eocdWindowStart_truncateLast_le (b : Buffer) :
    eocdWindowStart (truncateLast b) ≤ eocdWindowStart b := by
  unfold eocdWindowStart truncateLast
  dsimp only
  split <;> split <;> omega

theorem parse_cases (b : Buffer) :
    (b.size < 22 ∧ parse b = .ret (some .NotAZip, mkZipfile b)) ∨
    (¬ b.size < 22 ∧ findEocd b = none ∧
      parse b = .ret (some .NotAZip, mkZipfile b)) ∨
    (∃ e, ¬ b.size < 22 ∧ findEocd b = some e ∧
      read_central_dir_values (mkZipfile b) e ((b.size : Int) - (e : Int)) = .oob ∧
      parse b = .oob) ∨
    (∃ e f1, ¬ b.size < 22 ∧ findEocd b = some e ∧
      read_central_dir_values (mkZipfile b) e ((b.size : Int) - (e : Int)) =
        .ret (some .Truncated, f1) ∧ f1.buf = b ∧ f1.entries = [] ∧
      parse b = .ret (some .Truncated, f1)) ∨
    (∃ e f1, ¬ b.size < 22 ∧ findEocd b = some e ∧
      read_central_dir_values (mkZipfile b) e ((b.size : Int) - (e : Int)) =
        .ret (none, f1) ∧ f1.buf = b ∧ f1.entries = [] ∧
      (f1.disknum ≠ 0 ∨ f1.diskWithCentralDir ≠ 0 ∨
        f1.entryCount ≠ f1.totalEntryCount) ∧
      parse b = .ret (some .SpanningUnsupported, f1)) ∨
    (∃ e f1, ¬ b.size < 22 ∧ findEocd b = some e ∧
      read_central_dir_values (mkZipfile b) e ((b.size : Int) - (e : Int)) =
        .ret (none, f1) ∧ f1.buf = b ∧ f1.entries = [] ∧
      ¬ (f1.disknum ≠ 0 ∨ f1.diskWithCentralDir ≠ 0 ∨
        f1.entryCount ≠ f1.totalEntryCount) ∧
      parse b = entriesLoop f1 f1.centralDirOffest
        ((f1.buf.size : Int) - (f1.centralDirOffest : Int)) f1.totalEntryCount) := by
  by_cases hsz : b.size < 22
  · exact Or.inl ⟨hsz, @rcd_small (mkZipfile b) hsz⟩
  cases hfind : findEocd b with
  | none =>
    exact Or.inr (Or.inl ⟨hsz, rfl, @rcd_nofind (mkZipfile b) hsz hfind⟩)
  | some e =>
    cases hvals : read_central_dir_values (mkZipfile b) e ((b.size : Int) - (e : Int)) with
    | oob =>
      exact Or.inr (Or.inr (Or.inl ⟨e, hsz, rfl, hvals,
        @rcd_values_oob (mkZipfile b) e hsz hfind hvals⟩))
    | ret r =>
      obtain ⟨zo, f1⟩ := r
      have hpres := values_preserves hvals
      cases zo with
      | some z =>
        have hzt := values_err_Truncated hvals
        subst hzt
        exact Or.inr (Or.inr (Or.inr (Or.inl ⟨e, f1, hsz, rfl, hvals, hpres.1,
          hpres.2, @rcd_values_err (mkZipfile b) e _ f1 hsz hfind hvals⟩)))
      | none =>
        by_cases hsp : f1.disknum ≠ 0 ∨ f1.diskWithCentralDir ≠ 0 ∨
            f1.entryCount ≠ f1.totalEntryCount
        · exact Or.inr (Or.inr (Or.inr (Or.inr (Or.inl ⟨e, f1, hsz, rfl, hvals,
            hpres.1, hpres.2, hsp, @rcd_spanning (mkZipfile b) e f1 hsz hfind hvals hsp⟩))))
        · exact Or.inr (Or.inr (Or.inr (Or.inr (Or.inr ⟨e, f1, hsz, rfl, hvals,
            hpres.1, hpres.2, hsp, @rcd_loop (mkZipfile b) e f1 hsz hfind hvals hsp⟩))))

/-- C1: the claim states that `parse` never reads outside the buffer, and in
particular that when `localHeaderRelOffset` is strictly inside the buffer the
2-byte read at offset 0x1c of the local header is also in bounds.  The code
violates this: on the 69-byte archive `c1buf`, whose single entry declares
`localHeaderRelOffset = 68`, the offset passes the `p >= bufLimit` check and
the parser then reads the two bytes at offsets 96 and 97, past the buffer
end.  The parse therefore evaluates to the out-of-bounds outcome. -/
theorem C1_local_extra_read_out_of_bounds : parseOutcome c1buf = CResult.oob := by
  decide

/-- C2: every entry descriptor of a successful parse has its data offset
strictly within the buffer, stored entries satisfy
`uncompressedSize <= bufsize - data`, deflate entries satisfy
`compressedSize <= bufsize - data`, and for any other compression method no
size bound is checked: the decode of `bNCbuf` succeeds with method 99 and
both declared sizes `0xFFFFFFFF`, far beyond its 47-byte buffer. -/
theorem C2_entry_bounds :
    (∀ (b : Buffer) (f : Zipfile), parse b = .ret (none, f) →
      ∀ e, e ∈ f.entries → entryWithinBounds b e) ∧
    (read_central_directory_entry (mkZipfile bNCbuf) 0 47 =
        .ret (.ok (bNCentry, 47, 0)) ∧
      bNCbuf.size < bNCentry.uncompressedSize ∧
      bNCbuf.size < bNCentry.compressedSize) := by
  constructor
  · intro b f h e he
    rcases parse_cases b with ⟨hsz, hp⟩ | ⟨hsz, hf, hp⟩ | ⟨e0, hsz, hf, hv, hp⟩ |
        ⟨e0, f1, hsz, hf, hv, hb1, he1, hp⟩ | ⟨e0, f1, hsz, hf, hv, hb1, he1, hsp, hp⟩ |
        ⟨e0, f1, hsz, hf, hv, hb1, he1, hsp, hp⟩
    · rw [hp] at h
      simp at h
    · rw [hp] at h
      simp at h
    · rw [hp] at h
      simp at h
    · rw [hp] at h
      simp at h
    · rw [hp] at h
      simp at h
    · rw [hp] at h
      have hinv : ∀ e2, e2 ∈ f1.entries → entryWithinBounds f1.buf e2 := by
        intro e2 he2
        rw [he1] at he2
        simp at he2
      have hres := entriesLoop_bounds f1.totalEntryCount f1 f1.centralDirOffest
        ((f1.buf.size : Int) - (f1.centralDirOffest : Int)) f h hinv e he
      rw [hb1] at hres
      exact hres
  · exact ⟨by rfl, by decide, by decide⟩

/-- C2 witness: the single entry of the concrete archive `a1buf` (a stored
entry with data offset 31 in a 99-byte buffer) satisfies the bounds
invariant, obtained by instantiating the theorem at `a1buf`. -/
theorem C2_entry_bounds_witness : entryWithinBounds a1buf a1entry := by
  have h := C2_entry_bounds.1 a1buf a1file (by rfl) a1entry (by decide)
  exact h

/-- C3 counterexample: the claim says that on any error path the entry
collection is left unchanged (empty).  Parsing `a2buf` (EOCD declares two
entries but only one record is present) fails with `Truncated`, yet the
file state retains the first decoded entry. -/
theorem C3_partial_entries_on_error :
    parseOutcome a2buf = .ret (some .Truncated) ∧
    parseEntries a2buf = [a1entry] ∧
    parseEntries a2buf ≠ [] := by
  refine ⟨by decide, by decide, by decide⟩

/-- C3 (amended): on every failing parse the result is an error and no
success result is returned, but the entry collection may retain the entries
decoded before the failure (never more than `totalEntryCount`); a successful
parse returns exactly `totalEntryCount` entries. -/
theorem C3_all_or_nothing_amended :
    (∀ (b : Buffer) (f : Zipfile), parse b = .ret (none, f) →
      f.entries.length = f.totalEntryCount) ∧
    (∀ (b : Buffer) (z : Zerr) (f : Zipfile), parse b = .ret (some z, f) →
      f.entries.length ≤ f.totalEntryCount) := by
  constructor
  · intro b f h
    rcases parse_cases b with ⟨hsz, hp⟩ | ⟨hsz, hf, hp⟩ | ⟨e0, hsz, hf, hv, hp⟩ |
        ⟨e0, f1, hsz, hf, hv, hb1, he1, hp⟩ | ⟨e0, f1, hsz, hf, hv, hb1, he1, hsp, hp⟩ |
        ⟨e0, f1, hsz, hf, hv, hb1, he1, hsp, hp⟩
    · rw [hp] at h
      simp at h
    · rw [hp] at h
      simp at h
    · rw [hp] at h
      simp at h
    · rw [hp] at h
      simp at h
    · rw [hp] at h
      simp at h
    · rw [hp] at h
      obtain ⟨l, hdecl, hshape, hlen⟩ := entriesLoop_ok_spec _ _ _ _ _ h
      rw [hshape, zf_entries_set, zf_total_set, he1]
      simp [hlen]
  · intro b z f h
    rcases parse_cases b with ⟨hsz, hp⟩ | ⟨hsz, hf, hp⟩ | ⟨e0, hsz, hf, hv, hp⟩ |
        ⟨e0, f1, hsz, hf, hv, hb1, he1, hp⟩ | ⟨e0, f1, hsz, hf, hv, hb1, he1, hsp, hp⟩ |
        ⟨e0, f1, hsz, hf, hv, hb1, he1, hsp, hp⟩
    · rw [hp] at h
      simp only [CResult.ret.injEq, Prod.mk.injEq] at h
      rw [← h.2]
      simp [mkZipfile]
    · rw [hp] at h
      simp only [CResult.ret.injEq, Prod.mk.injEq] at h
      rw [← h.2]
      simp [mkZipfile]
    · rw [hp] at h
      simp at h
    · rw [hp] at h
      simp only [CResult.ret.injEq, Prod.mk.injEq] at h
      rw [← h.2]
      rw [he1]
      simp
    · rw [hp] at h
      simp only [CResult.ret.injEq, Prod.mk.injEq] at h
      rw [← h.2]
      rw [he1]
      simp
    · rw [hp] at h
      obtain ⟨l, hshape, hlen⟩ := entriesLoop_err_spec _ _ _ _ _ _ h
      rw [hshape, zf_entries_set, zf_total_set, he1]
      simp
      omega

/-- C3 witness: the successful parse of `a1buf` populates exactly
`totalEntryCount = 1` entries. -/
theorem C3_all_or_nothing_amended_witness :
    a1file.entries.length = a1file.totalEntryCount :=
  C3_all_or_nothing_amended.1 a1buf a1file (by rfl)

/-- C4: the EOCD locator fails with `NotAZip` exactly when the buffer is
shorter than 22 bytes or no position of the tail window carries the
signature; when it finds an offset, that offset is the highest position of
the window carrying the signature; and the first-byte pre-check never
changes the probe result. -/
theorem C4_eocd_locator :
    (∀ b : Buffer,
      parseOutcome b = .ret (some .NotAZip) ↔
        (b.size < 22 ∨ ∀ q, eocdWindowStart b ≤ q → q + 4 ≤ b.size →
          matchAt b q = false)) ∧
    (∀ (b : Buffer) (e : Nat), findEocd b = some e →
      eocdWindowStart b ≤ e ∧ e + 4 ≤ b.size ∧ matchAt b e = true ∧
        ∀ q, e < q → q + 4 ≤ b.size → matchAt b q = false) ∧
    (∀ (b : Buffer) (i : Nat), matchAt b i = matchAtNoPrecheck b i) := by
  refine ⟨?_, fun b e h => findEocd_some_spec h, fun b i => matchAt_eq_noPrecheck b i⟩
  intro b
  constructor
  · intro h
    rcases parse_cases b with ⟨hsz, hp⟩ | ⟨hsz, hf, hp⟩ | ⟨e0, hsz, hf, hv, hp⟩ |
        ⟨e0, f1, hsz, hf, hv, hb1, he1, hp⟩ | ⟨e0, f1, hsz, hf, hv, hb1, he1, hsp, hp⟩ |
        ⟨e0, f1, hsz, hf, hv, hb1, he1, hsp, hp⟩
    · exact Or.inl hsz
    · exact Or.inr ((findEocd_none_iff hsz).mp hf)
    · have h2 : parseOutcome b = .oob := by
        unfold parseOutcome
        rw [hp]
      rw [h2] at h
      simp at h
    · have h2 : parseOutcome b = .ret (some .Truncated) := by
        unfold parseOutcome
        rw [hp]
      rw [h2] at h
      simp at h
    · have h2 : parseOutcome b = .ret (some .SpanningUnsupported) := by
        unfold parseOutcome
        rw [hp]
      rw [h2] at h
      simp at h
    · cases hloop : entriesLoop f1 f1.centralDirOffest
          ((f1.buf.size : Int) - (f1.centralDirOffest : Int)) f1.totalEntryCount with
      | oob =>
        have h2 : parseOutcome b = .oob := by
          unfold parseOutcome
          rw [hp, hloop]
        rw [h2] at h
        simp at h
      | ret r =>
        obtain ⟨zo, f2⟩ := r
        cases zo with
        | none =>
          have h2 : parseOutcome b = .ret none := by
            unfold parseOutcome
            rw [hp, hloop]
          rw [h2] at h
          simp at h
        | some z =>
          have hne := entriesLoop_err_ne_NotAZip _ _ _ _ _ _ hloop
          have h2 : parseOutcome b = .ret (some z) := by
            unfold parseOutcome
            rw [hp, hloop]
          rw [h2] at h
          simp only [CResult.ret.injEq, Option.some.injEq] at h
          exact absurd h hne
  · intro h
    rcases h with hsz | hnm
    · have hp := @rcd_small (mkZipfile b) hsz
      unfold parseOutcome
      rw [show parse b = .ret (some .NotAZip, mkZipfile b) from hp]
    · by_cases hsz : b.size < 22
      · have hp := @rcd_small (mkZipfile b) hsz
        unfold parseOutcome
        rw [show parse b = .ret (some .NotAZip, mkZipfile b) from hp]
      · have hf : findEocd b = none := (findEocd_none_iff hsz).mpr hnm
        have hp := @rcd_nofind (mkZipfile b) hsz hf
        unfold parseOutcome
        rw [show parse b = .ret (some .NotAZip, mkZipfile b) from hp]

/-- C4 witness: instantiating the locator characterization at the concrete
archive `a1buf`, whose EOCD signature sits at offset 77. -/
theorem C4_eocd_locator_witness :
    matchAt a1buf 77 = true ∧ (¬ parseOutcome a1buf = .ret (some .NotAZip)) := by
  constructor
  · exact (C4_eocd_locator.2.1 a1buf 77 (by decide)).2.2.1
  · intro hcontra
    have h2 := (C4_eocd_locator.1 a1buf).mp hcontra
    rcases h2 with h3 | h3
    · exact absurd h3 (by decide)
    · have h4 := h3 77 (by decide) (by decide)
      have h5 : matchAt a1buf 77 = true := by decide
      rw [h5] at h4
      exact absurd h4 (by decide)

/-- C5: a successful parse produces exactly `totalEntryCount` entry
descriptors, and the produced collection is the reverse of the entries in
on-disk declaration order (each decoded entry is prepended). -/
theorem C5_entry_order :
    ∀ (b : Buffer) (f : Zipfile), parse b = .ret (none, f) →
      (parseEntriesDecl b).map List.reverse = some f.entries ∧
      f.entries.length = f.totalEntryCount := by
  intro b f h
  rcases parse_cases b with ⟨hsz, hp⟩ | ⟨hsz, hf, hp⟩ | ⟨e0, hsz, hf, hv, hp⟩ |
      ⟨e0, f1, hsz, hf, hv, hb1, he1, hp⟩ | ⟨e0, f1, hsz, hf, hv, hb1, he1, hsp, hp⟩ |
      ⟨e0, f1, hsz, hf, hv, hb1, he1, hsp, hp⟩
  · rw [hp] at h
    simp at h
  · rw [hp] at h
    simp at h
  · rw [hp] at h
    simp at h
  · rw [hp] at h
    simp at h
  · rw [hp] at h
    simp at h
  · rw [hp] at h
    obtain ⟨l, hdecl, hshape, hlen⟩ := entriesLoop_ok_spec _ _ _ _ _ h
    constructor
    · unfold parseEntriesDecl
      rw [if_neg hsz, hf]
      dsimp only
      rw [hv]
      dsimp only
      rw [if_neg hsp, hdecl]
      dsimp only [Option.map]
      rw [hshape, zf_entries_set, he1]
      simp
    · rw [hshape, zf_entries_set, zf_total_set, he1]
      simp [hlen]

/-- C5 witness: the parse of `a1buf` returns its single entry, and the
declaration-order list reversed equals the produced collection. -/
theorem C5_entry_order_witness :
    (parseEntriesDecl a1buf).map List.reverse = some a1file.entries ∧
      a1file.entries.length = a1file.totalEntryCount :=
  C5_entry_order a1buf a1file (by rfl)

/-- C6 counterexample: the claim states the entry data offset equals the
mathematical sum `localHeaderRelOffset + 30 + fileNameLength +
localExtraFieldLength`.  On `bc6buf` the record declares
`localHeaderRelOffset = 4294967246` and a 100-byte name with a zero local
extra field, so the sum is `2^32 + 80`; the decode succeeds and stores the
wrapped offset 80, which differs from the sum. -/
theorem C6_data_offset_wraps :
    read_central_directory_entry (mkZipfile bc6buf) 0 146 =
      .ret (.ok (bc6entry, 146, 0)) ∧
    read_le_short bc6buf (0 + 0x1c) = some 100 ∧
    read_le_int bc6buf (0 + 0x2a) = some 4294967246 ∧
    read_le_short bc6buf (4294967246 + 0x1c) = some 0 ∧
    bc6entry.data ≠ 4294967246 + 30 + 100 + 0 := by
  refine ⟨by rfl, by rfl, by rfl, by rfl, by decide⟩

/-- C6 (amended): the data offset of a successfully decoded entry equals
`(localHeaderRelOffset + 30 + fileNameLength + localExtraFieldLength) mod
2^32` — the local header extra-field length, not the central-directory one —
and is strictly inside the buffer; an `InvalidDataOffset` failure happens
exactly when that wrapped offset falls outside the buffer. -/
theorem C6_data_offset_amended :
    (∀ (file : Zipfile) (p : Nat) (len : Int) (e : Zipentry) (q : Nat) (len2 : Int)
        (fn lhro exLocal : Nat),
      read_central_directory_entry file p len = .ret (.ok (e, q, len2)) →
      read_le_short file.buf (p + 0x1c) = some fn →
      read_le_int file.buf (p + 0x2a) = some lhro →
      read_le_short file.buf (lhro + 0x1c) = some exLocal →
      e.data = (lhro + 30 + fn + exLocal) % 4294967296 ∧ e.data < file.buf.size) ∧
    (∀ (file : Zipfile) (p : Nat) (len : Int) (fn lhro exLocal : Nat),
      read_central_directory_entry file p len = .ret (.error .InvalidDataOffset) →
      read_le_short file.buf (p + 0x1c) = some fn →
      read_le_int file.buf (p + 0x2a) = some lhro →
      read_le_short file.buf (lhro + 0x1c) = some exLocal →
      file.buf.size ≤ (lhro + 30 + fn + exLocal) % 4294967296) := by
  constructor
  · intro file p len e q len2 fn lhro exLocal h hfn hlhro hexl
    obtain ⟨cm, cs, us, fn2, ex2, fc2, lhro2, exL2, hlen, hcm, hcs, hus, hfn2, hex2,
      hfc2, hlhro2, hexl2, hfn0, hr1, hr2, hr3, hlsz, hdsz, hm0, hm8, he, hq, hl2⟩ :=
      decode_ok_spec h
    rw [hfn] at hfn2
    injection hfn2 with efn
    subst efn
    rw [hlhro] at hlhro2
    injection hlhro2 with elh
    subst elh
    rw [hexl] at hexl2
    injection hexl2 with eex
    subst eex
    subst he
    exact ⟨rfl, hdsz⟩
  · intro file p len fn lhro exLocal h hfn hlhro hexl
    obtain ⟨fn2, lhro2, exL2, hfn2, hlhro2, hexl2, hd⟩ :=
      decode_invalidDataOffset_spec h
    rw [hfn] at hfn2
    injection hfn2 with efn
    subst efn
    rw [hlhro] at hlhro2
    injection hlhro2 with elh
    subst elh
    rw [hexl] at hexl2
    injection hexl2 with eex
    subst eex
    exact hd

/-- C6 witness: the entry of `a1buf` has data offset
`(0 + 30 + 1 + 0) mod 2^32 = 31`, inside the 99-byte buffer. -/
theorem C6_data_offset_amended_witness :
    a1entry.data = (0 + 30 + 1 + 0) % 4294967296 ∧ a1entry.data < a1buf.size := by
  have h := C6_data_offset_amended.1 (mkZipfile a1buf) 30 69 a1entry 77 22 1 0 0
    (by rfl) (by rfl) (by rfl) (by rfl)
  exact h

/-- C7: when the located EOCD decodes with a nonzero disk number, a nonzero
central-directory disk, or mismatching entry counts, the parse fails with
`SpanningUnsupported` and the entry collection is still empty (no entry was
decoded). -/
theorem C7_spanning_unsupported :
    ∀ (b : Buffer) (e : Nat) (f1 : Zipfile),
      findEocd b = some e →
      read_central_dir_values (mkZipfile b) e ((b.size : Int) - (e : Int)) =
        .ret (none, f1) →
      (f1.disknum ≠ 0 ∨ f1.diskWithCentralDir ≠ 0 ∨
        f1.entryCount ≠ f1.totalEntryCount) →
      parseOutcome b = .ret (some .SpanningUnsupported) ∧ parseEntries b = [] := by
  intro b e f1 hf hv hsp
  have hsz : ¬ b.size < 22 := by
    have := findEocd_some_size hf
    omega
  have hp := @rcd_spanning (mkZipfile b) e f1 hsz hf hv hsp
  have hent := (values_preserves hv).2
  constructor
  · unfold parseOutcome
    rw [show parse b = .ret (some .SpanningUnsupported, f1) from hp]
  · unfold parseEntries
    rw [show parse b = .ret (some .SpanningUnsupported, f1) from hp]
    exact hent

/-- C7 witness: the 22-byte EOCD-only buffer `s1buf` declaring disk number 1
parses to `SpanningUnsupported` with no entries. -/
theorem C7_spanning_unsupported_witness :
    parseOutcome s1buf = .ret (some .SpanningUnsupported) ∧
      parseEntries s1buf = [] :=
  C7_spanning_unsupported s1buf 0 s1file (by rfl) (by rfl) (Or.inl (by decide))

/-- C10: the stored data offset is computed in 32-bit unsigned arithmetic —
for every successful decode it equals the sum modulo 2^32 — and on `bc6buf`
(declared offset `2^32 - 50`, 100-byte name) the mathematical sum `2^32 + 80`
is at least 2^32 and also past the buffer end, yet the decode succeeds
because the in-bounds check sees only the wrapped value 80. -/
theorem C10_data_offset_32bit :
    (∀ (file : Zipfile) (p : Nat) (len : Int) (e : Zipentry) (q : Nat) (len2 : Int)
        (fn lhro exLocal : Nat),
      read_central_directory_entry file p len = .ret (.ok (e, q, len2)) →
      read_le_short file.buf (p + 0x1c) = some fn →
      read_le_int file.buf (p + 0x2a) = some lhro →
      read_le_short file.buf (lhro + 0x1c) = some exLocal →
      e.data = (lhro + 30 + fn + exLocal) % 4294967296) ∧
    (read_central_directory_entry (mkZipfile bc6buf) 0 146 =
        .ret (.ok (bc6entry, 146, 0)) ∧
      read_le_short bc6buf (0 + 0x1c) = some 100 ∧
      read_le_int bc6buf (0 + 0x2a) = some 4294967246 ∧
      read_le_short bc6buf (4294967246 + 0x1c) = some 0 ∧
      4294967296 ≤ 4294967246 + 30 + 100 + 0 ∧
      bc6buf.size ≤ 4294967246 + 30 + 100 + 0 ∧
      bc6entry.data = (4294967246 + 30 + 100 + 0) % 4294967296 ∧
      bc6entry.data < bc6buf.size) := by
  constructor
  · intro file p len e q len2 fn lhro exLocal h hfn hlhro hexl
    obtain ⟨cm, cs, us, fn2, ex2, fc2, lhro2, exL2, hlen, hcm, hcs, hus, hfn2, hex2,
      hfc2, hlhro2, hexl2, hfn0, hr1, hr2, hr3, hlsz, hdsz, hm0, hm8, he, hq, hl2⟩ :=
      decode_ok_spec h
    rw [hfn] at hfn2
    injection hfn2 with efn
    subst efn
    rw [hlhro] at hlhro2
    injection hlhro2 with elh
    subst elh
    rw [hexl] at hexl2
    injection hexl2 with eex
    subst eex
    subst he
    rfl
  · refine ⟨by rfl, by rfl, by rfl, by rfl, by decide, by decide, by decide, by decide⟩

/-- C10 witness: the entry of `bNCbuf` stores
`(0 + 30 + 1 + 1) mod 2^32 = 32`. -/
theorem C10_data_offset_32bit_witness :
    bNCentry.data = (0 + 30 + 1 + 1) % 4294967296 :=
  C10_data_offset_32bit.1 (mkZipfile bNCbuf) 0 47 bNCentry 47 0 1 0 1
    (by rfl) (by rfl) (by rfl) (by rfl)

/-- C8 counterexample: the claim says removing the final byte of any
successfully parsed buffer always makes the parse fail.  The 23-byte buffer
`b23buf` (a 22-byte EOCD declaring zero entries followed by one junk byte)
parses successfully, and so does its 22-byte truncation. -/
theorem C8_truncation_can_succeed :
    parseOutcome b23buf = .ret none ∧
      parseOutcome (truncateLast b23buf) = .ret none :=
  ⟨by decide, by decide⟩

/-- C8 (amended): removing the final byte of a successfully parsed buffer
yields `NotAZip` or `Truncated` provided the archive is tight at the tail —
the EOCD record plus its declared comment extend exactly to the buffer's
final byte (`eocd + 22 + commentLen = bufsize`).  With trailing junk after
the comment the truncated parse may instead still succeed. -/
theorem C8_truncation_amended :
    ∀ (b : Buffer) (f : Zipfile) (e cl : Nat),
      parse b = .ret (none, f) →
      findEocd b = some e →
      read_le_short b (e + 0x14) = some cl →
      e + 22 + cl = b.size →
      parseOutcome (truncateLast b) = .ret (some .NotAZip) ∨
      parseOutcome (truncateLast b) = .ret (some .Truncated) := by
  intro b f e cl hok hfind hcl htight
  have hts : (truncateLast b).size = b.size - 1 := rfl
  have hsz := findEocd_some_size hfind
  obtain ⟨hws, he4, hm, hnomatch⟩ := findEocd_some_spec hfind
  by_cases hsmall : (truncateLast b).size < 22
  · left
    have hp := @rcd_small (mkZipfile (truncateLast b)) hsmall
    unfold parseOutcome
    rw [show parse (truncateLast b) =
      .ret (some .NotAZip, mkZipfile (truncateLast b)) from hp]
  · right
    have he22 : e + 22 ≤ b.size := by omega
    have hfind2 : findEocd (truncateLast b) = some e := by
      unfold findEocd
      rw [if_neg hsmall]
      unfold scanAux
      have htop2 := @eocdWindow_top (truncateLast b) (by omega)
      have hwsle := eocdWindowStart_truncateLast_le b
      apply scanAuxC_complete
      · omega
      · omega
      · rw [matchAt_truncateLast (by omega)]
        exact hm
      · intro q hq1 hq2
        rw [matchAt_truncateLast (by omega)]
        exact hnomatch q hq1 (by omega)
    by_cases hcl0 : cl = 0
    · have hlen21 : ((truncateLast b).size : Int) - (e : Int) < 22 := by omega
      have hv := @values_len_short (mkZipfile (truncateLast b)) e
        (((truncateLast b).size : Int) - (e : Int)) hlen21
      have hp := @rcd_values_err (mkZipfile (truncateLast b)) e .Truncated
        (mkZipfile (truncateLast b)) hsmall hfind2 hv
      unfold parseOutcome
      rw [show parse (truncateLast b) =
        .ret (some .Truncated, mkZipfile (truncateLast b)) from hp]
    · have hcll : 0 < cl := by omega
      have hclt : read_le_short (truncateLast b) (e + 0x14) = some cl := by
        rw [read_le_short_truncateLast (by omega)]
        exact hcl
      obtain ⟨f1x, hv⟩ := @values_comment_truncated (mkZipfile (truncateLast b)) e
        (((truncateLast b).size : Int) - (e : Int)) cl (by omega) hclt hcll
        (by omega) (show e + 21 < (truncateLast b).size by omega)
      have hp := @rcd_values_err (mkZipfile (truncateLast b)) e .Truncated f1x
        hsmall hfind2 hv
      unfold parseOutcome
      rw [show parse (truncateLast b) = .ret (some .Truncated, f1x) from hp]

/-- C8 witness: `a1buf` is tight (EOCD at 77, no comment, 77 + 22 = 99), and
truncating it by one byte indeed fails with `Truncated`. -/
theorem C8_truncation_amended_witness :
    parseOutcome (truncateLast a1buf) = .ret (some .NotAZip) ∨
      parseOutcome (truncateLast a1buf) = .ret (some .Truncated) :=
  C8_truncation_amended a1buf a1file 77 0 (by rfl) (by rfl) (by rfl) (by decide)

/-- C9: resource bounds of the parse — the backward EOCD scan probes at most
65554 positions; every 16-bit field (in particular `totalEntryCount`, which
bounds the number of entry-loop iterations) is at most 65535; and each
successful entry decode advances the forward cursor by at least the 46-byte
fixed record size, shrinking the remaining length accordingly. -/
theorem C9_termination_bounds :
    (∀ b : Buffer, 22 ≤ b.size →
      (scanAuxC b (eocdWindowStart b) (b.size - 4 - eocdWindowStart b)).2 ≤ 65554) ∧
    (∀ (b : Buffer) (off tec : Nat), read_le_short b off = some tec → tec ≤ 65535) ∧
    (∀ (file : Zipfile) (p : Nat) (len : Int) (e : Zipentry) (q : Nat) (len2 : Int),
      read_central_directory_entry file p len = .ret (.ok (e, q, len2)) →
      p + 46 ≤ q ∧ len2 ≤ len - 46) := by
  refine ⟨?_, fun b off tec h => by have := read_le_short_lt h; omega,
    fun file p len e q len2 h => decode_ok_advance h⟩
  intro b hsz
  have hk : b.size - 4 - eocdWindowStart b ≤ 65553 := by
    unfold eocdWindowStart
    split <;> omega
  have hst := scanAuxC_steps b (eocdWindowStart b) (b.size - 4 - eocdWindowStart b)
  omega

/-- C9 witness: instantiated at `a1buf` — its scan probes at most 65554
positions, its `totalEntryCount` read yields 1 ≤ 65535, and its entry decode
advances the cursor from 30 to 77. -/
theorem C9_termination_bounds_witness :
    (scanAuxC a1buf (eocdWindowStart a1buf)
        (a1buf.size - 4 - eocdWindowStart a1buf)).2 ≤ 65554 ∧
      (1 : Nat) ≤ 65535 ∧ (30 + 46 ≤ 77 ∧ (22 : Int) ≤ 69 - 46) := by
  refine ⟨C9_termination_bounds.1 a1buf (by decide), ?_, ?_⟩
  · exact C9_termination_bounds.2.1 a1buf 87 1 (by rfl)
  · exact C9_termination_bounds.2.2 (mkZipfile a1buf) 30 69 a1entry 77 22 (by rfl)
